import Mathlib

/-!
Verification development for the x69 assembler generator.

The development shallowly embeds the two-stage compiler:
the config compiler (`src/config.rs`, `create_assembler_from_config`),
which turns instruction-pattern text into a per-mnemonic DFA with an
attached encoding template, and the assembler/encoder
(`src/parser.rs`, `Assembler::assemble`), which drives that DFA over
tokenized source lines and evaluates the matched template into bytes.
Diagnostics follow `src/log.rs`.  Machine integers are modelled as `Nat`
with explicit masking where the Rust code truncates (`as u8` is `% 256`,
`& 0xF` is `&&& 15`).  Rust `Vec` is `List`, `HashMap` is an association
list (the map is only ever used through `get`/`entry`, never iterated).
-/

set_option maxHeartbeats 1000000

namespace Asm

/-- Severity of a diagnostic (`log.rs`, `LogLevel`). -/
inductive LogLevel where
  | warning
  | error
deriving DecidableEq

/-- Origin of a diagnostic (`log.rs`, `Origin`): source identifier plus 0-based line. -/
structure Origin where
  file : String
  line : Nat
deriving DecidableEq

/-- One diagnostic (`log.rs`, `Log`). -/
structure Log where
  origin : Option Origin
  message : String
  level : LogLevel
deriving DecidableEq

/-- `Log::is_error` (`log.rs`). -/
def Log.is_error (l : Log) : Bool := l.level = LogLevel.error

/-- Modelled from the spec: the `Logger` used by `parser.rs` and `config.rs` is
referenced as `crate::log::Logger` but its definition is not among the given
sources (`src/src/log.rs` only defines `LoggedResult`).  Per the spec,
the diagnostics engine accumulates warnings and errors tagged with an origin
(source identifier + line number); the callers set `logger.origin` once per
source line before logging. -/
structure Logger where
  origin : Option Origin
  logs : List Log
deriving DecidableEq

/-- `Logger::new` (modelled from the spec). -/
def Logger.new (o : Option Origin) : Logger := ⟨o, []⟩

/-- Record a warning carrying the logger's current origin. -/
def Logger.log_warning (lg : Logger) (msg : String) : Logger :=
  ⟨lg.origin, lg.logs ++ [⟨lg.origin, msg, LogLevel.warning⟩]⟩

/-- Record an error carrying the logger's current origin. -/
def Logger.log_error (lg : Logger) (msg : String) : Logger :=
  ⟨lg.origin, lg.logs ++ [⟨lg.origin, msg, LogLevel.error⟩]⟩

/-- Merge the diagnostics of a nested operation into this logger, as in
`LoggedResult::take_log_and` (`log.rs`): the nested logs are appended as-is. -/
def Logger.extendLogs (lg : Logger) (more : List Log) : Logger :=
  ⟨lg.origin, lg.logs ++ more⟩

/-- `LoggedResult` (`log.rs`): an optional artifact together with every
diagnostic collected while producing it. -/
structure LoggedResult (T : Type) where
  result : Option T
  logs : List Log
deriving DecidableEq

/-- `Logger::into_result`, with the semantics of
`LoggedResult::return_value` (`log.rs`, lines 99-106): the value is kept
iff no error-severity diagnostic was recorded; all logs are returned. -/
def Logger.into_result {T : Type} (lg : Logger) (v : T) : LoggedResult T :=
  ⟨if lg.logs.any Log.is_error then none else some v, lg.logs⟩

/-- `Logger::into_none` (used by `codegen_brackets` early returns):
no value, all logs kept. -/
def Logger.into_none {T : Type} (lg : Logger) : LoggedResult T :=
  ⟨none, lg.logs⟩

/-! ### Tokens and the line tokenizer

Modelled from the spec: the tokenizer used by `parser.rs` / `config.rs` is an
external collaborator (spec §1, §6); the `Token` variants matched by the two
compiler stages are Identifier, Register(index), Integer(64-bit value),
Immediate(index), Comma, Colon, Arrow, Or (pipe), OpenBracket, CloseBracket.
Integers are written in decimal, hex (`0x`) or binary (`0b`); registers are
`rN`, immediates `iN`, both case-insensitive; `//` and `/* ... */` comments
and whitespace are elided; each lexeme carries its exact source substring. -/

/-- Token kinds consumed by the compiler stages (modelled from the spec). -/
inductive Token where
  | ident (s : String)
  | integer (v : Nat)
  | register (r : Nat)
  | immediate (i : Nat)
  | comma
  | colon
  | arrow
  | orTok
  | openBracket
  | closeBracket
  | errorTok
deriving DecidableEq

/-- A token together with the exact source slice it came from. -/
structure Lexeme where
  token : Token
  slice : String
deriving DecidableEq

def isWsChar (c : Char) : Bool := c == ' ' || c == '\t' || c == '\r' || c == '\n'

def isHexChar (c : Char) : Bool :=
  c.isDigit || ( 'a' ≤ c && c ≤ 'f') || ( 'A' ≤ c && c ≤ 'F')

def isBinChar (c : Char) : Bool := c == '0' || c == '1'

def isWordChar (c : Char) : Bool := c == '_' || c.isAlphanum

def isIdentStart (c : Char) : Bool := c == '_' || c.isAlpha

/-- Numeric value of one digit (any radix up to 16). -/
def digitVal (c : Char) : Nat :=
  if c.isDigit then c.toNat - '0'.toNat
  else if 'a' ≤ c ∧ c ≤ 'f' then c.toNat - 'a'.toNat + 10
  else if 'A' ≤ c ∧ c ≤ 'F' then c.toNat - 'A'.toNat + 10
  else 0

def parseDigits (base : Nat) (cs : List Char) : Nat :=
  cs.foldl (fun a c => a * base + digitVal c) 0

/-- Classify a lexed word: `rN` is a register, `iN` an immediate
(case-insensitive), anything else an identifier. -/
def classifyWord (w : List Char) : Token :=
  match w with
  | c :: rest =>
      if (c == 'r' || c == 'R') && !rest.isEmpty && rest.all Char.isDigit then
        Token.register (parseDigits 10 rest)
      else if (c == 'i' || c == 'I') && !rest.isEmpty && rest.all Char.isDigit then
        Token.immediate (parseDigits 10 rest)
      else Token.ident (String.mk w)
  | [] => Token.ident ""

/-- Skip a `/* ... */` block comment body, returning the characters after `*/`. -/
def skipBlockComment : List Char → List Char
  | [] => []
  | '*' :: '/' :: rest => rest
  | _ :: rest => skipBlockComment rest

/-- Lex one integer literal starting at `c` (hex `0x`, binary `0b`, else
decimal), returning the lexeme and the remaining characters. -/
def lexNumber (c : Char) (cs : List Char) : Lexeme × List Char :=
  if c == '0' then
    match cs with
    | x :: rest =>
        if (x == 'x' || x == 'X') && (match rest with | d :: _ => isHexChar d | [] => false) then
          let ds := rest.takeWhile isHexChar
          (⟨Token.integer (parseDigits 16 ds), String.mk (c :: x :: ds)⟩, rest.drop ds.length)
        else if (x == 'b' || x == 'B') && (match rest with | d :: _ => isBinChar d | [] => false) then
          let ds := rest.takeWhile isBinChar
          (⟨Token.integer (parseDigits 2 ds), String.mk (c :: x :: ds)⟩, rest.drop ds.length)
        else
          let ds := cs.takeWhile Char.isDigit
          (⟨Token.integer (parseDigits 10 (c :: ds)), String.mk (c :: ds)⟩, cs.drop ds.length)
    | [] => (⟨Token.integer 0, "0"⟩, [])
  else
    let ds := cs.takeWhile Char.isDigit
    (⟨Token.integer (parseDigits 10 (c :: ds)), String.mk (c :: ds)⟩, cs.drop ds.length)

/-- Fuel-driven tokenizer for one source line; each step consumes at least one
character, so fuel `length + 1` suffices. -/
def lexAux : Nat → List Char → List Lexeme
  | 0, _ => []
  | _ + 1, [] => []
  | fuel + 1, c :: cs =>
    if isWsChar c then lexAux fuel cs
    else if c == '/' then
      match cs with
      | '/' :: _ => []
      | '*' :: cs2 => lexAux fuel (skipBlockComment cs2)
      | _ => ⟨Token.errorTok, String.mk [c]⟩ :: lexAux fuel cs
    else if c == '-' then
      match cs with
      | '>' :: cs2 => ⟨Token.arrow, "->"⟩ :: lexAux fuel cs2
      | _ => ⟨Token.errorTok, String.mk [c]⟩ :: lexAux fuel cs
    else if c == ',' then ⟨Token.comma, ","⟩ :: lexAux fuel cs
    else if c == ':' then ⟨Token.colon, ":"⟩ :: lexAux fuel cs
    else if c == '|' then ⟨Token.orTok, "|"⟩ :: lexAux fuel cs
    else if c == '[' then ⟨Token.openBracket, "["⟩ :: lexAux fuel cs
    else if c == ']' then ⟨Token.closeBracket, "]"⟩ :: lexAux fuel cs
    else if c.isDigit then
      let (lx, rest) := lexNumber c cs
      lx :: lexAux fuel rest
    else if isIdentStart c then
      let w := c :: cs.takeWhile isWordChar
      ⟨classifyWord w, String.mk w⟩ :: lexAux fuel (cs.drop (w.length - 1))
    else ⟨Token.errorTok, String.mk [c]⟩ :: lexAux fuel cs

/-- Tokenize one source line (`Lexer::new(source)` plus draining the iterator). -/
def lexLine (s : String) : List Lexeme := lexAux (s.data.length + 1) s.data

/-- Split source text into lines with Rust `str::lines` terminator semantics
(one trailing newline produces no extra empty line; a trailing `\r` is
stripped from each line). -/
def splitLinesGo : List Char → List Char → List (List Char)
  | [], acc => [acc.reverse]
  | '\n' :: rest, acc =>
      acc.reverse :: (match rest with | [] => [] | _ :: _ => splitLinesGo rest [])
  | c :: rest, acc => splitLinesGo rest (c :: acc)

def dropCR (l : List Char) : List Char :=
  if l.getLast? == some '\r' then l.dropLast else l

def linesOf (s : String) : List String :=
  match s.data with
  | [] => []
  | cs => (splitLinesGo cs []).map (fun l => String.mk (dropCR l))

/-- Lowercasing, as Rust `str::to_lowercase` restricted to the ASCII
identifiers this assembler handles. -/
def lowerStr (s : String) : String := String.mk (s.data.map Char.toLower)

/-! ### The instruction model (`parser.rs`) -/

/-- `CodegenData` (`parser.rs`): one encoding atom.  `byte` is `Byte(u8)`,
`immediate i width` is `Immediate(usize, usize)` (capture index and declared
bit width), `register r` is `Register(usize)` (capture index). -/
inductive CodegenData where
  | byte (b : Nat)
  | immediate (i : Nat) (width : Nat)
  | register (r : Nat)
deriving DecidableEq

/-- `Codegen` (`parser.rs`): a full-byte atom or a packed dual-nibble pair. -/
inductive Codegen where
  | data (d : CodegenData)
  | upperLower (upper lower : CodegenData)
deriving DecidableEq

/-- `Codegen::byte` constructor helper (`parser.rs`); `int as u8` is `% 256`
at the call sites. -/
def Codegen.byte (b : Nat) : Codegen := Codegen.data (CodegenData.byte b)

/-- `Codegen::immediate` constructor helper (`parser.rs`). -/
def Codegen.immediate (imm b : Nat) : Codegen := Codegen.data (CodegenData.immediate imm b)

/-- `Codegen::register` constructor helper (`parser.rs`). -/
def Codegen.register (r : Nat) : Codegen := Codegen.data (CodegenData.register r)

/-- `Transition` (`parser.rs`): `Reject` or `NextState(usize)`. -/
inductive Transition where
  | reject
  | nextState (n : Nat)
deriving DecidableEq

instance : Inhabited Transition := ⟨Transition.reject⟩

/-- `TransitionTable` (`parser.rs`): one DFA state. -/
structure TransitionTable where
  register : Transition
  immediate : Transition
  comma : Transition
  accept_codegen : Option (List Codegen)
deriving DecidableEq

/-- `TransitionTable::default()`: all transitions reject, not accepting. -/
instance : Inhabited TransitionTable :=
  ⟨⟨Transition.reject, Transition.reject, Transition.reject, none⟩⟩

/-- `Instruction` (`parser.rs`). -/
structure Instruction where
  syntaxes : List String
  states : List TransitionTable
deriving DecidableEq

/-- `Assembler` (`parser.rs`): map from lowercase mnemonic to `Instruction`
(`HashMap` modelled as an association list with unique keys). -/
structure Assembler where
  instructions : List (String × Instruction)
deriving DecidableEq

/-- `HashMap::get` on the association list. -/
def mapLookup : List (String × Instruction) → String → Option Instruction
  | [], _ => none
  | (k, v) :: rest, key => if k = key then some v else mapLookup rest key

/-- Store a value under a key: replace the existing binding or append a new
one (the association-list image of `HashMap` `entry/insert`). -/
def mapStore : List (String × Instruction) → String → Instruction → List (String × Instruction)
  | [], key, ins => [(key, ins)]
  | (k, v) :: rest, key, ins =>
      if k = key then (key, ins) :: rest else (k, v) :: mapStore rest key ins

/-! ### The assembler / encoder (`Assembler::assemble`, `parser.rs`) -/

/-- Debug rendering of `Vec<String>` (`{:?}`), used in the
"syntaxes available" diagnostics. -/
def renderStrings (ss : List String) : String :=
  "[" ++ String.intercalate ", " (ss.map (fun s => "\"" ++ s ++ "\"")) ++ "]"

/-- The "syntaxes available for ..." diagnostic text (`parser.rs`). -/
def syntaxesMsg (name : String) (ins : Instruction) : String :=
  "syntaxes available for " ++ name ++ ": " ++ renderStrings ins.syntaxes

/-- The DFA walk of `Assembler::assemble` (`parser.rs`, lines 82-138): consume
the line's remaining lexemes from state `cs`, pushing captures in encounter
order.  Returns the accept template (`some`) or `none` when the line was
abandoned with errors, together with the final capture buffers and logger.
`captured_registers` starts empty each line (cleared at `parser.rs:68`);
`captured_immediates` is threaded in from the previous lines because the
source never clears it. -/
def asmWalk (ins : Instruction) (name : String) :
    List Lexeme → Nat → List Nat → List Nat → Logger →
    Option (List Codegen) × List Nat × List Nat × Logger
  | [], cs, regs, imms, lg =>
      match (ins.states.getD cs default).accept_codegen with
      | some cg => (some cg, regs, imms, lg)
      | none =>
          (none, regs, imms,
            (lg.log_error "syntax error").log_error (syntaxesMsg name ins))
  | ⟨Token.integer v, s⟩ :: rest, cs, regs, imms, lg =>
      match (ins.states.getD cs default).immediate with
      | Transition.nextState next => asmWalk ins name rest next regs (imms ++ [v]) lg
      | Transition.reject =>
          (none, regs, imms,
            (lg.log_error ("unexpected immediate: \x27" ++ s ++ "\x27")).log_error
              (syntaxesMsg name ins))
  | ⟨Token.register r, s⟩ :: rest, cs, regs, imms, lg =>
      match (ins.states.getD cs default).register with
      | Transition.nextState next =>
          if r > 15 then
            (none, regs, imms, lg.log_error ("register out of bounds: \x27" ++ s ++ "\x27"))
          else asmWalk ins name rest next (regs ++ [r]) imms lg
      | Transition.reject =>
          (none, regs, imms,
            (lg.log_error ("unexpected register: \x27" ++ s ++ "\x27")).log_error
              (syntaxesMsg name ins))
  | ⟨Token.comma, _⟩ :: rest, cs, regs, imms, lg =>
      match (ins.states.getD cs default).comma with
      | Transition.nextState next => asmWalk ins name rest next regs imms lg
      | Transition.reject =>
          (none, regs, imms,
            (lg.log_error "unexpected comma").log_error (syntaxesMsg name ins))
  | ⟨_, s⟩ :: _, _, regs, imms, lg =>
      (none, regs, imms,
        (lg.log_error ("unexpected token: \x27" ++ s ++ "\x27")).log_error
          (syntaxesMsg name ins))

/-- The `decode` closure of `Assembler::assemble` (`parser.rs`, lines
140-144): resolve an atom to one byte.  `Register(r)` reads
`captured_registers[r]`, `Immediate(imm, _)` reads
`captured_immediates[imm] as u8` (the value's low byte).  The Rust indexing
panics out of bounds; here out-of-bounds reads default to `0`, and every
theorem about capture reads carries an in-bounds hypothesis. -/
def decode (regs imms : List Nat) : CodegenData → Nat
  | CodegenData.byte b => b
  | CodegenData.register r => regs.getD r 0
  | CodegenData.immediate imm _ => imms.getD imm 0 % 256

/-- Bit length of `v` computed with bounded recursion (64 division steps,
enough for any `u64` value). -/
def bitLenGo : Nat → Nat → Nat
  | 0, _ => 0
  | f + 1, v => if v = 0 then 0 else bitLenGo f (v / 2) + 1

/-- Bit length of a `u64` value. -/
def bitLen64 (v : Nat) : Nat := bitLenGo 64 v

/-- `u64::leading_zeros` (for values `< 2^64`). -/
def leadingZeros64 (v : Nat) : Nat := 64 - bitLen64 v

/-- `u64::to_le_bytes`: the eight little-endian bytes of `v`. -/
def u64ToLeBytes (v : Nat) : List Nat :=
  (List.range 8).map (fun k => v / 256 ^ k % 256)

/-- Evaluate one encoding step (body of the `for data in codegen` loop of
`Assembler::assemble`, `parser.rs`, lines 146-166), returning the bytes it
appends and the updated logger.  A byte-aligned `Immediate(imm, b)` warns via
`imm.leading_zeros() < (64 - b + 1)` and appends `imm.to_le_bytes()[..b/8]`;
other atoms append `decode` of themselves; `UpperLower` packs two 4-bit
nibbles into one byte. -/
def evalStep (regs imms : List Nat) (lg : Logger) : Codegen → List Nat × Logger
  | Codegen.data (CodegenData.immediate imm b) =>
      let v := imms.getD imm 0
      let lg :=
        if leadingZeros64 v < 64 - b + 1 then
          lg.log_warning ("\x27" ++ Nat.repr v ++ "\x27 will be truncated to " ++
            Nat.repr b ++ " bits")
        else lg
      ((u64ToLeBytes v).take (b / 8), lg)
  | Codegen.data d => ([decode regs imms d], lg)
  | Codegen.upperLower u l =>
      ([((decode regs imms u &&& 15) <<< 4) ||| (decode regs imms l &&& 15)], lg)

/-- Evaluate a whole encoding template in order (`parser.rs`, lines 146-167). -/
def evalCodegen (regs imms : List Nat) (lg : Logger) : List Codegen → List Nat × Logger
  | [] => ([], lg)
  | c :: rest =>
      let (b1, lg1) := evalStep regs imms lg c
      let (b2, lg2) := evalCodegen regs imms lg1 rest
      (b1 ++ b2, lg2)

/-- Process one source line of `Assembler::assemble` (`parser.rs`, lines
65-172) over its lexemes: skip empty lines, require an identifier head, look
up the instruction, walk the DFA and evaluate the accept template.  State
threaded across lines: `captured_immediates` (never cleared by the source),
the output buffer, and the logger.  (`captured_registers` is cleared at the
top of the loop, so the walk starts with an empty register buffer.) -/
def asmLineCore (a : Assembler) (lexemes : List Lexeme) (imms out : List Nat)
    (lg : Logger) : List Nat × List Nat × Logger :=
  match lexemes with
  | [] => (imms, out, lg)
  | lx :: rest =>
    match lx.token with
    | Token.ident id0 =>
        let name := lowerStr id0
        match mapLookup a.instructions name with
        | none => (imms, out, lg.log_error ("unknown instruction: \x27" ++ lx.slice ++ "\x27"))
        | some ins =>
          match asmWalk ins name rest 0 [] imms lg with
          | (some cg, regs', imms', lg') =>
              let (bytes, lg2) := evalCodegen regs' imms' lg' cg
              (imms', out ++ bytes, lg2)
          | (none, _, imms', lg') => (imms', out, lg')
    | _ => (imms, out, lg.log_error ("unexpected token: \x27" ++ lx.slice ++ "\x27"))

/-- `Assembler::assemble` (`parser.rs`, lines 58-176): per enumerated line,
set the logger origin, tokenize and process; finally
`logger.into_result(|| output)`. -/
def Assembler.assemble (a : Assembler) (source : String) : LoggedResult (List Nat) :=
  let fin := (linesOf source).enum.foldl
    (fun (acc : List Nat × List Nat × Logger) (p : Nat × String) =>
      asmLineCore a (lexLine p.2) acc.1 acc.2.1
        ⟨some ⟨"[unknown]", p.1⟩, acc.2.2.logs⟩)
    ([], [], Logger.new none)
  fin.2.2.into_result fin.2.1

/-! ### The config compiler (`create_assembler_from_config`, `config.rs`) -/

/-- A raw bracket-group log entry; `codegen_brackets` runs with
`Logger::new(None)`, so its diagnostics carry no origin. -/
def errLog (m : String) : Log := ⟨none, m, LogLevel.error⟩

def warnLog (m : String) : Log := ⟨none, m, LogLevel.warning⟩

/-- The `match_codegen_data_after!` macro of `codegen_brackets` (`config.rs`,
lines 9-46): parse one nibble value.  `none` models the macro's early
`return logger.into_none()`; the register arm logs an out-of-range error but
still yields the atom. -/
def parseNibble (tks : List Lexeme) (name : String) (registers : Nat)
    (immediates : List (Nat × Nat)) (after : String) :
    Option CodegenData × List Log × List Lexeme :=
  match tks with
  | ⟨Token.integer int, s⟩ :: rest =>
      let ws := if int > 15 then [warnLog (s ++ " is larger than 4 bits and will be truncated")] else []
      (some (CodegenData.byte (int &&& 15)), ws, rest)
  | ⟨Token.immediate im, _⟩ :: rest =>
      if im ≥ immediates.length then
        (none,
          [errLog ("\x27" ++ name ++ "\x27 uses immediate " ++ Nat.repr im ++
            " which is not given in the instruction pattern")], rest)
      else
        let p := immediates.getD im (0, 0)
        if p.2 ≠ 4 then
          (none, [errLog "width of immediate in bracket group must be 4 (for now)"], rest)
        else (some (CodegenData.immediate p.1 p.2), [], rest)
  | ⟨Token.register r, _⟩ :: rest =>
      let es :=
        if r ≥ registers then
          [errLog ("\x27" ++ name ++ "\x27 uses register " ++ Nat.repr r ++
            " which is not given in the instruction pattern")]
        else []
      (some (CodegenData.register r), es, rest)
  | ⟨_, s⟩ :: rest =>
      (none, [errLog ("expected a literal or register after \x27" ++ after ++
        "\x27, but got \x27" ++ s ++ "\x27")], rest)
  | [] =>
      (none, [errLog ("expected a literal or register after \x27" ++ after ++ "\x27")], [])

/-- The `match_symbol!` macro of `codegen_brackets` (`config.rs`, lines
47-61): require one exact punctuation token. -/
def expectSymbol (tks : List Lexeme) (expected : Token) (sym : String) :
    Bool × List Log × List Lexeme :=
  match tks with
  | ⟨t, s⟩ :: rest =>
      if t = expected then (true, [], rest)
      else (false, [errLog ("expected \x27" ++ sym ++ "\x27 in bracket group, but got \x27" ++
        s ++ "\x27")], rest)
  | [] => (false, [errLog ("expected \x27" ++ sym ++ "\x27 in bracket group")], [])

/-- `codegen_brackets` (`config.rs`, lines 6-69): parse
`<value> | <value> ]`, producing an `UpperLower` step via
`logger.into_result` — so any error recorded along the way (including the
best-effort register arm) yields `none`.  Also returns the unconsumed
lexemes. -/
def codegen_brackets (tks : List Lexeme) (name : String) (registers : Nat)
    (immediates : List (Nat × Nat)) : LoggedResult Codegen × List Lexeme :=
  match parseNibble tks name registers immediates "[" with
  | (none, l1, r1) => (⟨none, l1⟩, r1)
  | (some upper, l1, r1) =>
    match expectSymbol r1 Token.orTok "|" with
    | (false, l2, r2) => (⟨none, l1 ++ l2⟩, r2)
    | (true, l2, r2) =>
      match parseNibble r2 name registers immediates "|" with
      | (none, l3, r3) => (⟨none, l1 ++ l2 ++ l3⟩, r3)
      | (some lower, l3, r3) =>
        match expectSymbol r3 Token.closeBracket "]" with
        | (false, l4, r4) => (⟨none, l1 ++ l2 ++ l3 ++ l4⟩, r4)
        | (true, l4, r4) =>
            let logs := l1 ++ l2 ++ l3 ++ l4
            (⟨if logs.any Log.is_error then none
              else some (Codegen.upperLower upper lower), logs⟩, r4)

/-- The codegen-template loop after `->` (`config.rs`, lines 160-199),
accumulating encoding steps.  Fuel is the number of unread lexemes (each
iteration consumes at least one).  The immediate-out-of-range and
unknown-token arms `break`, returning what was accumulated so far. -/
def codegenLoop : Nat → List Lexeme → String → Nat → List (Nat × Nat) →
    List Codegen → Logger → List Codegen × Logger
  | 0, _, _, _, _, acc, lg => (acc, lg)
  | _ + 1, [], _, _, _, acc, lg => (acc, lg)
  | f + 1, lx :: rest, name, registers, immediates, acc, lg =>
    match lx.token with
    | Token.integer int =>
        let lg := if int > 255 then
            lg.log_warning (lx.slice ++ " is larger than 8 bits and will be truncated")
          else lg
        codegenLoop f rest name registers immediates (acc ++ [Codegen.byte (int % 256)]) lg
    | Token.immediate im =>
        if im ≥ immediates.length then
          (acc, lg.log_error ("\x27" ++ name ++ "\x27 uses immediate " ++ Nat.repr im ++
            " which is not given in the instruction pattern"))
        else
          let p := immediates.getD im (0, 0)
          if p.2 % 8 ≠ 0 then
            codegenLoop f rest name registers immediates acc
              (lg.log_error "immediate width must be byte aligned (for now)")
          else
            codegenLoop f rest name registers immediates
              (acc ++ [Codegen.immediate p.1 p.2]) lg
    | Token.register r =>
        let lg := if r ≥ registers then
            lg.log_error ("\x27" ++ name ++ "\x27 uses register " ++ Nat.repr r ++
              " which is not given in the instruction pattern")
          else lg
        codegenLoop f rest name registers immediates (acc ++ [Codegen.register r]) lg
    | Token.openBracket =>
        let br := codegen_brackets rest name registers immediates
        let lg := lg.extendLogs br.1.logs
        match br.1.result with
        | some cg => codegenLoop f br.2 name registers immediates (acc ++ [cg]) lg
        | none => codegenLoop f br.2 name registers immediates acc lg
    | _ =>
        (acc, lg.log_error ("codegen only supports literal values, registers, and bracket groups, but got \x27"
          ++ lx.slice ++ "\x27"))

/-- The mutable per-line state of the pattern loop in
`create_assembler_from_config` (`config.rs`, lines 92-96). -/
structure PatState where
  states : List TransitionTable
  current : Nat
  registers : Nat
  immediates : List (Nat × Nat)
  logger : Logger
  acceptState : Bool
deriving DecidableEq

/-- Walk or create the `register` transition (`config.rs`, lines 136-142):
reuse an existing transition, or point the slot at a freshly appended state. -/
def advanceRegister (sts : List TransitionTable) (cur : Nat) :
    List TransitionTable × Nat :=
  match (sts.getD cur default).register with
  | Transition.nextState n => (sts, n)
  | Transition.reject =>
      let t := sts.getD cur default
      ((sts.set cur { t with register := Transition.nextState sts.length }) ++ [default],
        sts.length)

/-- Walk or create the `immediate` transition (`config.rs`, lines 119-125). -/
def advanceImmediate (sts : List TransitionTable) (cur : Nat) :
    List TransitionTable × Nat :=
  match (sts.getD cur default).immediate with
  | Transition.nextState n => (sts, n)
  | Transition.reject =>
      let t := sts.getD cur default
      ((sts.set cur { t with immediate := Transition.nextState sts.length }) ++ [default],
        sts.length)

/-- Walk or create the `comma` transition (`config.rs`, lines 147-153). -/
def advanceComma (sts : List TransitionTable) (cur : Nat) :
    List TransitionTable × Nat :=
  match (sts.getD cur default).comma with
  | Transition.nextState n => (sts, n)
  | Transition.reject =>
      let t := sts.getD cur default
      ((sts.set cur { t with comma := Transition.nextState sts.length }) ++ [default],
        sts.length)

/-- The `while let Some(token) = lexer.next()` DFA-generation loop of
`create_assembler_from_config` (`config.rs`, lines 99-208).  Fuel is the
number of unread lexemes.  The `Arrow` arm ends the loop (conflicting
pattern, or codegen parsing and accept marking); width-parse failures after
an immediate's `:` `break`; a missing `:` only logs and continues. -/
def genDFA : Nat → List Lexeme → String → PatState → PatState
  | 0, _, _, σ => σ
  | _ + 1, [], _, σ => σ
  | f + 1, lx :: rest, name, σ =>
    match lx.token with
    | Token.immediate im =>
        let lg := if im > σ.immediates.length then
            σ.logger.log_warning ("immediates are parsed in the order they appear regardless of number; "
              ++ lx.slice ++ " will correspond to i" ++ Nat.repr σ.immediates.length ++ " in codegen")
          else σ.logger
        match rest with
        | ⟨Token.colon, _⟩ :: rest2 =>
          match rest2 with
          | ⟨Token.integer w, _⟩ :: rest3 =>
              let p := advanceImmediate σ.states σ.current
              genDFA f rest3 name
                ⟨p.1, p.2, σ.registers, σ.immediates ++ [(im, w)], lg, σ.acceptState⟩
          | ⟨_, s⟩ :: _ =>
              ⟨σ.states, σ.current, σ.registers, σ.immediates,
                lg.log_error ("expected width of immediate, but got: \x27" ++ s ++ "\x27"),
                σ.acceptState⟩
          | [] =>
              ⟨σ.states, σ.current, σ.registers, σ.immediates,
                lg.log_error "expected width of immediate", σ.acceptState⟩
        | ⟨_, s⟩ :: rest2 =>
            genDFA f rest2 name
              ⟨σ.states, σ.current, σ.registers, σ.immediates,
                lg.log_error ("expected width of immediate, but got \x27" ++ s ++ "\x27"),
                σ.acceptState⟩
        | [] =>
            ⟨σ.states, σ.current, σ.registers, σ.immediates,
              lg.log_error "expected width of immediate", σ.acceptState⟩
    | Token.register r =>
        let lg := if r ≠ σ.registers then
            σ.logger.log_warning ("registers are parsed in the order they appear regardless of number; "
              ++ lx.slice ++ " will correspond to r" ++ Nat.repr σ.registers ++ " in codegen")
          else σ.logger
        let p := advanceRegister σ.states σ.current
        genDFA f rest name
          ⟨p.1, p.2, σ.registers + 1, σ.immediates, lg, σ.acceptState⟩
    | Token.comma =>
        let p := advanceComma σ.states σ.current
        genDFA f rest name
          ⟨p.1, p.2, σ.registers, σ.immediates, σ.logger, σ.acceptState⟩
    | Token.arrow =>
        if (σ.states.getD σ.current default).accept_codegen.isSome then
          ⟨σ.states, σ.current, σ.registers, σ.immediates,
            σ.logger.log_error ("conflicting patterns for instruction \x27" ++ name ++ "\x27"),
            true⟩
        else
          let q := codegenLoop rest.length rest name σ.registers σ.immediates [] σ.logger
          let t := σ.states.getD σ.current default
          ⟨σ.states.set σ.current { t with accept_codegen := some q.1 },
            σ.current, σ.registers, σ.immediates, q.2, true⟩
    | _ =>
        genDFA f rest name
          ⟨σ.states, σ.current, σ.registers, σ.immediates,
            σ.logger.log_error ("unexpected token in instrution pattern: \x27" ++ lx.slice ++ "\x27"),
            σ.acceptState⟩

/-- `source.split_once("->").0`: the raw characters before the first `->`. -/
def beforeArrow : List Char → List Char
  | [] => []
  | '-' :: '>' :: _ => []
  | c :: rest => c :: beforeArrow rest

def endsWithColon (s : String) : Bool := s.data.getLast? == some ':'

/-- The human-readable pattern string reconstruction (`config.rs`, lines
212-220): re-lex the text before `->` and join slices with single spaces,
except around `,` and after `:`. -/
def syntaxFold (ls : List Lexeme) : String :=
  ls.foldl
    (fun a lx =>
      if a.isEmpty || endsWithColon a || lx.slice == "," || lx.slice == ":" then a ++ lx.slice
      else a ++ " " ++ lx.slice)
    ""

/-- Process one configuration line (`config.rs`, lines 76-222): skip empty
lines, require an identifier mnemonic, `entry().or_insert` a fresh
single-state instruction, run the DFA-generation loop starting at state 0,
then either log the missing-`->` error or append the reconstructed pattern
string to `syntaxes`.  The (possibly extended) states are stored back in the
map in every case. -/
def compileLine (map : List (String × Instruction)) (lg : Logger) (source : String) :
    List (String × Instruction) × Logger :=
  match lexLine source with
  | [] => (map, lg)
  | lx :: rest =>
    match lx.token with
    | Token.ident nm =>
        let name := lowerStr nm
        let ins := (mapLookup map name).getD ⟨[], [default]⟩
        let σ := genDFA rest.length rest name ⟨ins.states, 0, 0, [], lg, false⟩
        if σ.acceptState then
          let syntaxStr := lowerStr (syntaxFold (lexLine (String.mk (beforeArrow source.data))))
          (mapStore map name ⟨ins.syntaxes ++ [syntaxStr], σ.states⟩, σ.logger)
        else
          (mapStore map name ⟨ins.syntaxes, σ.states⟩,
            σ.logger.log_error "expected \x27->\x27 following an instruction pattern")
    | _ => (map, lg.log_error "only instruction patterns are supported in the assembler config at the moment")

/-- The full line loop of `create_assembler_from_config` (`config.rs`, lines
76-222), before the final `into_result`: instruction map plus logger. -/
def createAssemblerCore (config : String) : List (String × Instruction) × Logger :=
  (linesOf config).enum.foldl
    (fun acc p => compileLine acc.1 ⟨some ⟨"[unknown]", p.1⟩, acc.2.logs⟩ p.2)
    ([], Logger.new none)

/-- `create_assembler_from_config` (`config.rs`, lines 71-226). -/
def create_assembler_from_config (config : String) : LoggedResult Assembler :=
  let q := createAssemblerCore config
  q.2.into_result ⟨q.1⟩

/-! ### Specification-side notions used by the theorems -/

/-- Is this diagnostic a warning? -/
def isWarning (l : Log) : Bool := l.level == LogLevel.warning

/-- Spec-side resolution of an encoding atom to a 4-bit nibble: resolve it
through the capture buffers to a byte and keep the low 4 bits. -/
def nibbleOf (regs imms : List Nat) (d : CodegenData) : Nat :=
  decode regs imms d % 16

/-- A transition stays inside an arena of `n` states. -/
def TransOK (n : Nat) : Transition → Prop
  | Transition.reject => True
  | Transition.nextState k => k < n

/-- All three transition slots of a state stay inside `n` states. -/
def StateOK (n : Nat) (t : TransitionTable) : Prop :=
  TransOK n t.register ∧ TransOK n t.immediate ∧ TransOK n t.comma

/-- Every transition stored in the arena targets an existing state. -/
def Bounded (sts : List TransitionTable) : Prop :=
  ∀ t ∈ sts, StateOK sts.length t

/-- Every instruction in the map has a non-empty, in-bounds state arena. -/
def MapOK (m : List (String × Instruction)) : Prop :=
  ∀ name ins, mapLookup m name = some ins → 0 < ins.states.length ∧ Bounded ins.states

/-- A bounds-checked copy of the `asmWalk` DFA walk: identical control flow,
but every state access goes through `List.get?` and an out-of-bounds index
short-circuits to `none`.  `Bounded` states make it agree with `asmWalk`
(see the C10 theorem), showing every `states[current_state]` indexing of
`Assembler::assemble` is in bounds. -/
def asmWalkChecked (ins : Instruction) (name : String) :
    List Lexeme → Nat → List Nat → List Nat → Logger →
    Option (Option (List Codegen) × List Nat × List Nat × Logger)
  | [], cs, regs, imms, lg =>
      match ins.states.get? cs with
      | none => none
      | some t =>
        match t.accept_codegen with
        | some cg => some (some cg, regs, imms, lg)
        | none =>
            some (none, regs, imms,
              (lg.log_error "syntax error").log_error (syntaxesMsg name ins))
  | ⟨Token.integer v, s⟩ :: rest, cs, regs, imms, lg =>
      match ins.states.get? cs with
      | none => none
      | some t =>
        match t.immediate with
        | Transition.nextState next => asmWalkChecked ins name rest next regs (imms ++ [v]) lg
        | Transition.reject =>
            some (none, regs, imms,
              (lg.log_error ("unexpected immediate: \x27" ++ s ++ "\x27")).log_error
                (syntaxesMsg name ins))
  | ⟨Token.register r, s⟩ :: rest, cs, regs, imms, lg =>
      match ins.states.get? cs with
      | none => none
      | some t =>
        match t.register with
        | Transition.nextState next =>
            if r > 15 then
              some (none, regs, imms, lg.log_error ("register out of bounds: \x27" ++ s ++ "\x27"))
            else asmWalkChecked ins name rest next (regs ++ [r]) imms lg
        | Transition.reject =>
            some (none, regs, imms,
              (lg.log_error ("unexpected register: \x27" ++ s ++ "\x27")).log_error
                (syntaxesMsg name ins))
  | ⟨Token.comma, _⟩ :: rest, cs, regs, imms, lg =>
      match ins.states.get? cs with
      | none => none
      | some t =>
        match t.comma with
        | Transition.nextState next => asmWalkChecked ins name rest next regs imms lg
        | Transition.reject =>
            some (none, regs, imms,
              (lg.log_error "unexpected comma").log_error (syntaxesMsg name ins))
  | ⟨_, s⟩ :: _, _, regs, imms, lg =>
      some (none, regs, imms,
        (lg.log_error ("unexpected token: \x27" ++ s ++ "\x27")).log_error
          (syntaxesMsg name ins))

/-- The single-pattern assembler compiled from `add r0 -> 1` (used to
instantiate hypothesis-bearing theorems at a concrete input). -/
def insAdd : Instruction :=
  ⟨["add r0"],
    [⟨Transition.nextState 1, Transition.reject, Transition.reject, none⟩,
     ⟨Transition.reject, Transition.reject, Transition.reject, some [Codegen.byte 1]⟩]⟩

def asmAdd : Assembler := ⟨[("add", insAdd)]⟩

/-- A pattern-loop state whose current state is already accepting (used to
instantiate the conflicting-pattern theorem at a concrete input). -/
def patStateW : PatState :=
  ⟨[⟨Transition.reject, Transition.reject, Transition.reject, some [Codegen.byte 16]⟩],
    0, 0, [], Logger.new none, false⟩

/-! ### Helper lemmas -/

theorem and_fifteen (x : Nat) : x &&& 15 = x % 16 := by
  have h := Nat.and_pow_two_sub_one_eq_mod x 4
  norm_num at h
  exact h

theorem shiftl_or_small (a b : Nat) (ha : a < 16) (hb : b < 16) :
    (a <<< 4) ||| b = a * 16 + b := by
  have h : ∀ a < 16, ∀ b < 16, ((a <<< 4) ||| b) = a * 16 + b := by decide
  exact h a ha b hb

theorem nibblePack (x y : Nat) : ((x &&& 15) <<< 4) ||| (y &&& 15) = (x % 16) * 16 + y % 16 := by
  rw [and_fifteen, and_fifteen]
  exact shiftl_or_small _ _ (Nat.mod_lt _ (by norm_num)) (Nat.mod_lt _ (by norm_num))

theorem bitLenGo_zero (f : Nat) : bitLenGo f 0 = 0 := by
  cases f <;> simp [bitLenGo]

theorem bitLenGo_le (f v : Nat) : bitLenGo f v ≤ f := by
  induction f generalizing v with
  | zero => simp [bitLenGo]
  | succ f ih =>
      simp only [bitLenGo]
      split
      · omega
      · have := ih (v / 2)
        omega

theorem lt_two_pow_bitLenGo (f v : Nat) (h : v < 2 ^ f) : v < 2 ^ bitLenGo f v := by
  induction f generalizing v with
  | zero => simpa [bitLenGo] using h
  | succ f ih =>
      simp only [bitLenGo]
      split
      · omega
      · have hdiv : v / 2 < 2 ^ f := by
          rw [Nat.pow_succ] at h
          omega
        have := ih (v / 2) hdiv
        have h2 : 2 ^ (bitLenGo f (v / 2) + 1) = 2 ^ bitLenGo f (v / 2) * 2 := Nat.pow_succ ..
        omega

theorem two_pow_bitLenGo_le (f v : Nat) (hv : v ≠ 0) (h : v < 2 ^ f) :
    2 ^ (bitLenGo f v - 1) ≤ v := by
  induction f generalizing v with
  | zero => omega
  | succ f ih =>
      simp only [bitLenGo]
      split
      · omega
      · rcases Nat.eq_zero_or_pos (v / 2) with h0 | hpos
        · rw [h0, bitLenGo_zero]
          simpa using Nat.one_le_iff_ne_zero.mpr hv
        · have hdiv : v / 2 < 2 ^ f := by
            rw [Nat.pow_succ] at h
            omega
          have hrec := ih (v / 2) (by omega) hdiv
          have hposL : 0 < bitLenGo f (v / 2) := by
            cases f with
            | zero => omega
            | succ g =>
                simp only [bitLenGo]
                split
                · omega
                · omega
          have h2 : 2 ^ (bitLenGo f (v / 2) - 1 + 1) = 2 ^ (bitLenGo f (v / 2) - 1) * 2 :=
            Nat.pow_succ ..
          have heq : bitLenGo f (v / 2) + 1 - 1 = bitLenGo f (v / 2) - 1 + 1 := by omega
          rw [heq, h2]
          omega

/-- The Rust warning guard `imm.leading_zeros() < (64 - b + 1)` holds exactly
when the value needs at least `b` significant bits, i.e. `2^(b-1) ≤ v`. -/
theorem warnCond_iff (v b : Nat) (hv : v < 2 ^ 64) (hb1 : 1 ≤ b) (hb : b ≤ 64) :
    (leadingZeros64 v < 64 - b + 1) ↔ 2 ^ (b - 1) ≤ v := by
  unfold leadingZeros64 bitLen64
  have hL64 : bitLenGo 64 v ≤ 64 := bitLenGo_le _ _
  have hlt : v < 2 ^ bitLenGo 64 v := lt_two_pow_bitLenGo 64 v hv
  constructor
  · intro h
    have hbL : b ≤ bitLenGo 64 v := by omega
    rcases Nat.eq_zero_or_pos v with h0 | hpos
    · subst h0
      rw [bitLenGo_zero] at hbL
      omega
    · have hge : 2 ^ (bitLenGo 64 v - 1) ≤ v := two_pow_bitLenGo_le 64 v (by omega) hv
      calc 2 ^ (b - 1) ≤ 2 ^ (bitLenGo 64 v - 1) :=
            Nat.pow_le_pow_right (by norm_num) (by omega)
        _ ≤ v := hge
  · intro h
    have hlt2 : 2 ^ (b - 1) < 2 ^ bitLenGo 64 v := lt_of_le_of_lt h hlt
    have hbl : b - 1 < bitLenGo 64 v := (Nat.pow_lt_pow_iff_right (by norm_num)).mp hlt2
    omega

theorem leBytes_take (v n : Nat) (h : n ≤ 8) :
    (u64ToLeBytes v).take n = (List.range n).map (fun k => v / 256 ^ k % 256) := by
  unfold u64ToLeBytes
  rw [← List.map_take, List.take_range, Nat.min_eq_left h]

theorem getD_mem {α : Type} (l : List α) (i : Nat) (d : α) (h : i < l.length) :
    l.getD i d ∈ l := by
  rw [List.getD_eq_getElem l d h]
  exact List.getElem_mem h

/-- `into_result` keeps the value iff no error-severity log exists, and
always returns every collected log. -/
theorem into_result_spec {T : Type} (lg : Logger) (v : T) :
    ((lg.into_result v).result.isSome ↔ ∀ l ∈ (lg.into_result v).logs, l.level ≠ LogLevel.error)
    ∧ (lg.into_result v).logs = lg.logs := by
  unfold Logger.into_result
  refine ⟨?_, rfl⟩
  by_cases h : lg.logs.any Log.is_error
  · rw [List.any_eq_true] at h
    obtain ⟨x, hx, hpx⟩ := h
    simp only [Log.is_error, decide_eq_true_eq] at hpx
    simp only [List.any_eq_true, Log.is_error, decide_eq_true_eq]
    rw [if_pos]
    · constructor
      · intro hfalse
        simp at hfalse
      · intro hall
        exact absurd hpx (hall x hx)
    · exact ⟨x, hx, hpx⟩
  · rw [if_neg h]
    simp only [Option.isSome_some, true_iff]
    intro l hl
    rw [List.any_eq_true] at h
    push_neg at h
    have := h l hl
    simpa [Log.is_error] using this

theorem default_table :
    (default : TransitionTable) =
      ⟨Transition.reject, Transition.reject, Transition.reject, none⟩ := rfl

/-! ### The claims -/

/-- C1: the claim states that `captured_registers` and `captured_immediates`
are both empty at the start of each source line of one `assemble` call, so no
cross-line state exists.  The code clears only `captured_registers`
(`parser.rs:68`); `captured_immediates` is never cleared, so line 2 of
`ldi 1\nldi 2` reads the immediate captured on line 1: the output is
`[0x02, 1, 0x02, 1]` instead of the `[0x02, 1, 0x02, 2]` the claim implies,
and the immediates buffer handed to line 2 is `[1]`, not empty. -/
theorem C1_immediates_not_cleared :
    ((create_assembler_from_config "ldi i0:8 -> 0x02 i0").result.map
      (fun a => (a.assemble "ldi 1\nldi 2").result)) = some (some [2, 1, 2, 1])
    ∧ ((create_assembler_from_config "ldi i0:8 -> 0x02 i0").result.map
      (fun a => (asmLineCore a (lexLine "ldi 1") [] [] (Logger.new none)).1)) = some [1] :=
  ⟨by rfl, by rfl⟩

/-- C2 counterexample: the claim says the truncation warning fires iff the
value's significant bit count strictly exceeds the declared width.  Assembling
`ldi 255` against `ldi i0:8 -> 0x02 i0` emits a warning although `255 < 2^8`
(255 occupies exactly 8 significant bits, not more); the bytes are still
appended and no error is produced. -/
theorem C2_counterexample :
    ((create_assembler_from_config "ldi i0:8 -> 0x02 i0").result.map
      (fun a => (a.assemble "ldi 255").logs.countP isWarning)) = some 1
    ∧ ((create_assembler_from_config "ldi i0:8 -> 0x02 i0").result.map
      (fun a => (a.assemble "ldi 255").result)) = some (some [2, 255])
    ∧ 255 < 2 ^ 8 :=
  ⟨by rfl, by rfl, by norm_num⟩

/-- C2 (amended): evaluating a `CapturedImmediate(i, width)` step appends
exactly the low `width/8` bytes of the captured value little-endian, and
emits a truncation warning iff the value needs at least `width` significant
bits (`2^(width-1) ≤ v`), i.e. also when the value exactly fills `width`
bits; it never adds an error-severity diagnostic.  (Widths above 64 make the
Rust `64 - b + 1` computation and the `to_le_bytes` slice panic, hence the
`width ≤ 64` hypothesis; captured values are `u64`, hence `v < 2^64`.) -/
theorem C2_truncation_amended :
    ∀ (regs imms : List Nat) (lg : Logger) (i w : Nat),
      i < imms.length → imms.getD i 0 < 2 ^ 64 → 0 < w → w ≤ 64 →
      (evalStep regs imms lg (Codegen.immediate i w)).1 =
          (List.range (w / 8)).map (fun k => imms.getD i 0 / 256 ^ k % 256)
      ∧ (evalStep regs imms lg (Codegen.immediate i w)).2 =
          (if 2 ^ (w - 1) ≤ imms.getD i 0 then
            lg.log_warning ("\x27" ++ Nat.repr (imms.getD i 0) ++ "\x27 will be truncated to "
              ++ Nat.repr w ++ " bits")
          else lg)
      ∧ (∀ l ∈ (evalStep regs imms lg (Codegen.immediate i w)).2.logs,
          l ∈ lg.logs ∨ l.level = LogLevel.warning) := by
  intro regs imms lg i w _ hv hw1 hw64
  have hwc := warnCond_iff (imms.getD i 0) w hv hw1 hw64
  have hbytes : (evalStep regs imms lg (Codegen.immediate i w)).1 =
      (List.range (w / 8)).map (fun k => imms.getD i 0 / 256 ^ k % 256) := by
    simp only [Codegen.immediate, evalStep]
    exact leBytes_take _ _ (by omega)
  have hlogger : (evalStep regs imms lg (Codegen.immediate i w)).2 =
      (if 2 ^ (w - 1) ≤ imms.getD i 0 then
        lg.log_warning ("\x27" ++ Nat.repr (imms.getD i 0) ++ "\x27 will be truncated to "
          ++ Nat.repr w ++ " bits")
      else lg) := by
    simp only [Codegen.immediate, evalStep]
    exact if_congr hwc rfl rfl
  refine ⟨hbytes, hlogger, ?_⟩
  intro l hl
  rw [hlogger] at hl
  by_cases hc : 2 ^ (w - 1) ≤ imms.getD i 0
  · rw [if_pos hc] at hl
    simp only [Logger.log_warning, List.mem_append, List.mem_singleton] at hl
    rcases hl with hl | hl
    · exact Or.inl hl
    · subst hl
      exact Or.inr rfl
  · rw [if_neg hc] at hl
    exact Or.inl hl

/-- C2 witness: the amended theorem applied at the concrete input
`imms = [300]`, `width = 16`; the appended bytes are the two little-endian
low bytes of 300. -/
theorem C2_truncation_amended_witness :
    (evalStep [] [300] (Logger.new none) (Codegen.immediate 0 16)).1 = [44, 1] :=
  ((C2_truncation_amended [] [300] (Logger.new none) 0 16 (by decide) (by norm_num)
    (by decide) (by decide)).1).trans (by decide)

/-- C3: `compile` keeps its `Assembler` iff zero error-severity diagnostics
were recorded, `assemble` keeps its bytes iff no line logged an error,
warnings never affect success, and in every case the returned `LoggedResult`
carries exactly the collected diagnostics. -/
theorem C3_success_iff_no_error :
    ∀ (config source : String) (a : Assembler),
      ((create_assembler_from_config config).result.isSome ↔
        ∀ l ∈ (create_assembler_from_config config).logs, l.level ≠ LogLevel.error)
      ∧ ((a.assemble source).result.isSome ↔
        ∀ l ∈ (a.assemble source).logs, l.level ≠ LogLevel.error)
      ∧ (∀ (lg : Logger) (out : List Nat), (lg.into_result out).logs = lg.logs)
      ∧ (∀ (lg : Logger) (av : Assembler), (lg.into_result av).logs = lg.logs) := by
  intro config source a
  exact ⟨(into_result_spec _ _).1, (into_result_spec _ _).1,
    fun lg out => (into_result_spec lg out).2,
    fun lg av => (into_result_spec lg av).2⟩

/-- C5: the single-pattern config `add r0, r1 -> 0x01 r0 r1` compiles, and
assembling `add r2, r3` appends exactly `[0x01, 0x02, 0x03]`: the template
stores capture-slot indices (`Register 0`, `Register 1`) and evaluation
resolves them to the literal register numerals 2 and 3 captured on the
line. -/
theorem C5_end_to_end_add :
    ((create_assembler_from_config "add r0, r1 -> 0x01 r0 r1").result.map
      (fun a => (a.assemble "add r2, r3").result)) = some (some [1, 2, 3])
    ∧ (mapLookup (createAssemblerCore "add r0, r1 -> 0x01 r0 r1").1 "add").map
        (fun ins => (ins.states.getD 3 default).accept_codegen)
      = some (some [Codegen.byte 1, Codegen.register 0, Codegen.register 1]) :=
  ⟨by rfl, by rfl⟩

/-- C6: evaluating an `UpperLower(upper, lower)` step appends the single byte
`(upper & 0xF) << 4 | (lower & 0xF)`, each atom resolved through the capture
buffers to its low 4 bits (a register atom to the captured literal register
value, an immediate atom to its captured value's low byte), and in particular
`pack r0, r1 -> [r0 | r1]` assembles `pack r5, r2` to the single byte
`0x52`. -/
theorem C6_upper_lower :
    (∀ (regs imms : List Nat) (lg : Logger) (u l : CodegenData),
      evalStep regs imms lg (Codegen.upperLower u l) =
        ([nibbleOf regs imms u * 16 + nibbleOf regs imms l], lg))
    ∧ ((create_assembler_from_config "pack r0, r1 -> [r0 | r1]").result.map
        (fun a => (a.assemble "pack r5, r2").result)) = some (some [0x52]) := by
  constructor
  · intro regs imms lg u l
    simp only [evalStep, nibbleOf]
    rw [nibblePack]
  · rfl

/-- C4: when a pattern's `->` reaches a state whose `accept_codegen` is
already set, the compiler logs a conflicting-pattern error, leaves the states
(and hence the first-defined template) untouched, and the rest of the line is
discarded; concretely, compiling `add r0, r1 -> 0x10` then
`add r0, r1 -> 0x20` yields exactly one error, state 3 keeps the first
template `[0x10]`, and assembling `add r1, r2` against the resulting table
emits `[0x10]`. -/
theorem C4_conflicting_pattern :
    ∀ (f : Nat) (s : String) (rest : List Lexeme) (name : String) (σ : PatState)
      (t : List Codegen),
      (σ.states.getD σ.current default).accept_codegen = some t →
      genDFA (f + 1) (⟨Token.arrow, s⟩ :: rest) name σ =
        ⟨σ.states, σ.current, σ.registers, σ.immediates,
          σ.logger.log_error ("conflicting patterns for instruction \x27" ++ name ++ "\x27"),
          true⟩
      ∧ ((genDFA (f + 1) (⟨Token.arrow, s⟩ :: rest) name σ).states.getD σ.current
            default).accept_codegen = some t
      ∧ (genDFA (f + 1) (⟨Token.arrow, s⟩ :: rest) name σ).logger.logs =
          σ.logger.logs ++ [⟨σ.logger.origin,
            "conflicting patterns for instruction \x27" ++ name ++ "\x27", LogLevel.error⟩]
      ∧ ((createAssemblerCore "add r0, r1 -> 0x10\nadd r0, r1 -> 0x20").2.logs.countP
            Log.is_error = 1
        ∧ (mapLookup (createAssemblerCore "add r0, r1 -> 0x10\nadd r0, r1 -> 0x20").1
              "add").map (fun ins => (ins.states.getD 3 default).accept_codegen)
            = some (some [Codegen.byte 16])
        ∧ ((Assembler.mk (createAssemblerCore "add r0, r1 -> 0x10\nadd r0, r1 -> 0x20").1).assemble
              "add r1, r2").result = some [16]) := by
  intro f s rest name σ t h
  have hmain : genDFA (f + 1) (⟨Token.arrow, s⟩ :: rest) name σ =
      ⟨σ.states, σ.current, σ.registers, σ.immediates,
        σ.logger.log_error ("conflicting patterns for instruction \x27" ++ name ++ "\x27"),
        true⟩ := by
    have hs : (σ.states.getD σ.current default).accept_codegen.isSome = true := by
      rw [h]
      rfl
    simp only [genDFA, hs, if_true]
  refine ⟨hmain, ?_, ?_, by rfl, by rfl, by rfl⟩
  · rw [hmain]
    exact h
  · rw [hmain]
    rfl

/-- C4 witness: the theorem applied to a one-state pattern machine whose
start state already carries the template `[0x10]`. -/
theorem C4_conflicting_pattern_witness :
    genDFA 1 [⟨Token.arrow, "->"⟩] "add" patStateW =
      ⟨patStateW.states, 0, 0, [],
        (Logger.new none).log_error "conflicting patterns for instruction \x27add\x27",
        true⟩ :=
  (C4_conflicting_pattern 0 "->" [] "add" patStateW [Codegen.byte 16] (by rfl)).1

/-- C7 counterexample: the claim says an `Immediate` operand token warns
whenever its numeric suffix differs from the running count (larger or
smaller), like `Register` tokens.  In `foo i1:8 i0:8 -> 0` the second
immediate has suffix 0 while the running count is 1 (suffix smaller than
count), yet the whole line produces exactly one warning — only `i1`
(suffix larger than count 0) warns; counting still proceeds positionally,
storing both declarations. -/
theorem C7_counterexample :
    (genDFA 8 (lexLine "i1:8 i0:8 -> 0") "foo"
        ⟨[default], 0, 0, [], Logger.new none, false⟩).immediates = [(1, 8), (0, 8)]
    ∧ (genDFA 8 (lexLine "i1:8 i0:8 -> 0") "foo"
        ⟨[default], 0, 0, [], Logger.new none, false⟩).logger.logs.countP isWarning = 1
    ∧ (createAssemblerCore "foo i1:8 i0:8 -> 0").2.logs.countP isWarning = 1 :=
  ⟨by rfl, by rfl, by rfl⟩

/-- C7 (amended): an `Immediate` operand token warns iff its literal suffix
is strictly greater than the running count of immediates already declared in
the pattern (`im > immediates.len()`, unlike `Register`, which warns on any
mismatch), and counting always continues positionally: for a two-immediate
pattern `iN:w iM:w -> ...` the first declaration warns iff `0 < N`, the
second iff `1 < M`, and both land in the declaration list in positional
order. -/
theorem C7_immediate_warning_amended :
    ∀ (a w₁ b w₂ : Nat) (s₁ s₂ s₃ s₄ s₅ s₆ s₇ : String),
      (genDFA 7 [⟨Token.immediate a, s₁⟩, ⟨Token.colon, s₂⟩, ⟨Token.integer w₁, s₃⟩,
          ⟨Token.immediate b, s₄⟩, ⟨Token.colon, s₅⟩, ⟨Token.integer w₂, s₆⟩,
          ⟨Token.arrow, s₇⟩] "foo"
          ⟨[default], 0, 0, [], Logger.new none, false⟩).immediates = [(a, w₁), (b, w₂)]
      ∧ (genDFA 7 [⟨Token.immediate a, s₁⟩, ⟨Token.colon, s₂⟩, ⟨Token.integer w₁, s₃⟩,
          ⟨Token.immediate b, s₄⟩, ⟨Token.colon, s₅⟩, ⟨Token.integer w₂, s₆⟩,
          ⟨Token.arrow, s₇⟩] "foo"
          ⟨[default], 0, 0, [], Logger.new none, false⟩).logger.logs.countP isWarning =
        (if 0 < a then 1 else 0) + (if 1 < b then 1 else 0)
      ∧ (genDFA 7 [⟨Token.immediate a, s₁⟩, ⟨Token.colon, s₂⟩, ⟨Token.integer w₁, s₃⟩,
          ⟨Token.immediate b, s₄⟩, ⟨Token.colon, s₅⟩, ⟨Token.integer w₂, s₆⟩,
          ⟨Token.arrow, s₇⟩] "foo"
          ⟨[default], 0, 0, [], Logger.new none, false⟩).acceptState = true := by
  intro a w₁ b w₂ s₁ s₂ s₃ s₄ s₅ s₆ s₇
  by_cases ha : 0 < a <;> by_cases hb : 1 < b <;>
    simp [genDFA, advanceImmediate, codegenLoop, Logger.log_warning, Logger.new,
      isWarning, ha, hb, default_table, List.countP_cons, List.countP_append]

/-- C8: during assembly, a register token at a state with an outgoing
register transition errors with "register out of bounds" when the literal
register number exceeds 15, abandoning the walk; a register number of at most
15 is pushed onto the register-capture buffer and the walk advances to the
transition target.  An abandoned walk appends no bytes for its line: the
line step returns the output buffer unchanged (and the per-invocation fold
then continues with the next line). -/
theorem C8_register_bounds :
    (∀ (ins : Instruction) (name : String) (r : Nat) (s : String) (rest : List Lexeme)
      (cs : Nat) (regs imms : List Nat) (lg : Logger) (nxt : Nat),
      (ins.states.getD cs default).register = Transition.nextState nxt →
      (r > 15 →
        asmWalk ins name (⟨Token.register r, s⟩ :: rest) cs regs imms lg =
          (none, regs, imms, lg.log_error ("register out of bounds: \x27" ++ s ++ "\x27")))
      ∧ (r ≤ 15 →
        asmWalk ins name (⟨Token.register r, s⟩ :: rest) cs regs imms lg =
          asmWalk ins name rest nxt (regs ++ [r]) imms lg))
    ∧ (∀ (a : Assembler) (id0 sl : String) (rest : List Lexeme) (imms out : List Nat)
        (lg : Logger) (ins : Instruction) (regs' imms' : List Nat) (lg' : Logger),
        mapLookup a.instructions (lowerStr id0) = some ins →
        asmWalk ins (lowerStr id0) rest 0 [] imms lg = (none, regs', imms', lg') →
        asmLineCore a (⟨Token.ident id0, sl⟩ :: rest) imms out lg = (imms', out, lg')) := by
  constructor
  · intro ins name r s rest cs regs imms lg nxt hreg
    constructor
    · intro h16
      simp only [asmWalk, hreg]
      rw [if_pos h16]
    · intro h16
      simp only [asmWalk, hreg]
      rw [if_neg (by omega)]
  · intro a id0 sl rest imms out lg ins regs' imms' lg' hlookup hwalk
    simp only [asmLineCore, hlookup, hwalk]

/-- C8 witness: the out-of-bounds half applied to the compiled `add r0 -> 1`
instruction at register literal 16. -/
theorem C8_register_bounds_witness :
    asmWalk insAdd "add" [⟨Token.register 16, "r16"⟩] 0 [] [] (Logger.new none) =
      (none, [], [], (Logger.new none).log_error "register out of bounds: \x27r16\x27") :=
  (C8_register_bounds.1 insAdd "add" 16 "r16" [] 0 [] [] (Logger.new none) 1
    (by rfl)).1 (by norm_num)

/-- C9: an immediate referenced inside a bracket group must have been
declared with width exactly 4: any other declared width makes
`codegen_brackets` log "width of immediate in bracket group must be 4 (for
now)" and return no value, and the codegen loop then records no `UpperLower`
step for the bracket group (the accumulated template is unchanged). -/
theorem C9_bracket_immediate_width :
    (∀ (name : String) (registers : Nat) (immediates : List (Nat × Nat)) (im : Nat)
      (s : String) (rest : List Lexeme),
      im < immediates.length → (immediates.getD im (0, 0)).2 ≠ 4 →
      codegen_brackets (⟨Token.immediate im, s⟩ :: rest) name registers immediates =
        (⟨none, [errLog "width of immediate in bracket group must be 4 (for now)"]⟩, rest))
    ∧ (∀ (f : Nat) (name : String) (registers : Nat) (immediates : List (Nat × Nat))
        (im : Nat) (sb s : String) (rest : List Lexeme) (acc : List Codegen) (lg : Logger),
        im < immediates.length → (immediates.getD im (0, 0)).2 ≠ 4 →
        codegenLoop (f + 1) (⟨Token.openBracket, sb⟩ :: ⟨Token.immediate im, s⟩ :: rest)
            name registers immediates acc lg =
          codegenLoop f rest name registers immediates acc
            (lg.extendLogs [errLog "width of immediate in bracket group must be 4 (for now)"])) := by
  have hbr : ∀ (name : String) (registers : Nat) (immediates : List (Nat × Nat)) (im : Nat)
      (s : String) (rest : List Lexeme),
      im < immediates.length → (immediates.getD im (0, 0)).2 ≠ 4 →
      codegen_brackets (⟨Token.immediate im, s⟩ :: rest) name registers immediates =
        (⟨none, [errLog "width of immediate in bracket group must be 4 (for now)"]⟩, rest) := by
    intro name registers immediates im s rest him hw
    simp only [codegen_brackets, parseNibble]
    rw [if_neg (by omega), if_pos hw]
  refine ⟨hbr, ?_⟩
  intro f name registers immediates im sb s rest acc lg him hw
  simp only [codegenLoop, hbr name registers immediates im s rest him hw]

/-- C9 witness: the bracket parser applied to an immediate declared with
width 8. -/
theorem C9_bracket_immediate_width_witness :
    codegen_brackets [⟨Token.immediate 0, "i0"⟩] "baz" 0 [(0, 8)] =
      (⟨none, [errLog "width of immediate in bracket group must be 4 (for now)"]⟩, []) :=
  C9_bracket_immediate_width.1 "baz" 0 [(0, 8)] 0 "i0" [] (by decide) (by decide)

/-! ### State-arena invariants (for C10) -/

theorem transOK_mono {n m : Nat} (h : n ≤ m) : ∀ {t : Transition}, TransOK n t → TransOK m t := by
  intro t ht
  cases t with
  | reject => trivial
  | nextState k => exact Nat.lt_of_lt_of_le ht h

theorem stateOK_mono {n m : Nat} (h : n ≤ m) {t : TransitionTable} (ht : StateOK n t) :
    StateOK m t :=
  ⟨transOK_mono h ht.1, transOK_mono h ht.2.1, transOK_mono h ht.2.2⟩

theorem stateOK_default (n : Nat) : StateOK n default :=
  ⟨trivial, trivial, trivial⟩

theorem bounded_getD {sts : List TransitionTable} (hb : Bounded sts) {cur : Nat}
    (hc : cur < sts.length) : StateOK sts.length (sts.getD cur default) :=
  hb _ (getD_mem _ _ _ hc)

theorem bounded_singleton_default : Bounded [default] := by
  intro t ht
  rw [List.mem_singleton] at ht
  subst ht
  exact stateOK_default _

theorem advanceRegister_inv {sts : List TransitionTable} {cur : Nat} (hb : Bounded sts)
    (hc : cur < sts.length) :
    Bounded (advanceRegister sts cur).1 ∧
      (advanceRegister sts cur).2 < (advanceRegister sts cur).1.length := by
  unfold advanceRegister
  cases hm : (sts.getD cur default).register with
  | nextState n =>
      refine ⟨hb, ?_⟩
      have h1 := (bounded_getD hb hc).1
      rw [hm] at h1
      exact h1
  | reject =>
      have hlen : ((sts.set cur
          { sts.getD cur default with register := Transition.nextState sts.length })
            ++ [default]).length = sts.length + 1 := by
        simp
      refine ⟨?_, ?_⟩
      · intro t ht
        rw [hlen]
        rw [List.mem_append] at ht
        rcases ht with ht | ht
        · rcases List.mem_or_eq_of_mem_set ht with h1 | h1
          · exact stateOK_mono (Nat.le_succ _) (hb t h1)
          · subst h1
            have hold := bounded_getD hb hc
            exact ⟨Nat.lt_succ_self _, transOK_mono (Nat.le_succ _) hold.2.1,
              transOK_mono (Nat.le_succ _) hold.2.2⟩
        · rw [List.mem_singleton] at ht
          subst ht
          exact stateOK_default _
      · rw [hlen]
        exact Nat.lt_succ_self _

theorem advanceImmediate_inv {sts : List TransitionTable} {cur : Nat} (hb : Bounded sts)
    (hc : cur < sts.length) :
    Bounded (advanceImmediate sts cur).1 ∧
      (advanceImmediate sts cur).2 < (advanceImmediate sts cur).1.length := by
  unfold advanceImmediate
  cases hm : (sts.getD cur default).immediate with
  | nextState n =>
      refine ⟨hb, ?_⟩
      have h1 := (bounded_getD hb hc).2.1
      rw [hm] at h1
      exact h1
  | reject =>
      have hlen : ((sts.set cur
          { sts.getD cur default with immediate := Transition.nextState sts.length })
            ++ [default]).length = sts.length + 1 := by
        simp
      refine ⟨?_, ?_⟩
      · intro t ht
        rw [hlen]
        rw [List.mem_append] at ht
        rcases ht with ht | ht
        · rcases List.mem_or_eq_of_mem_set ht with h1 | h1
          · exact stateOK_mono (Nat.le_succ _) (hb t h1)
          · subst h1
            have hold := bounded_getD hb hc
            exact ⟨transOK_mono (Nat.le_succ _) hold.1, Nat.lt_succ_self _,
              transOK_mono (Nat.le_succ _) hold.2.2⟩
        · rw [List.mem_singleton] at ht
          subst ht
          exact stateOK_default _
      · rw [hlen]
        exact Nat.lt_succ_self _

theorem advanceComma_inv {sts : List TransitionTable} {cur : Nat} (hb : Bounded sts)
    (hc : cur < sts.length) :
    Bounded (advanceComma sts cur).1 ∧
      (advanceComma sts cur).2 < (advanceComma sts cur).1.length := by
  unfold advanceComma
  cases hm : (sts.getD cur default).comma with
  | nextState n =>
      refine ⟨hb, ?_⟩
      have h1 := (bounded_getD hb hc).2.2
      rw [hm] at h1
      exact h1
  | reject =>
      have hlen : ((sts.set cur
          { sts.getD cur default with comma := Transition.nextState sts.length })
            ++ [default]).length = sts.length + 1 := by
        simp
      refine ⟨?_, ?_⟩
      · intro t ht
        rw [hlen]
        rw [List.mem_append] at ht
        rcases ht with ht | ht
        · rcases List.mem_or_eq_of_mem_set ht with h1 | h1
          · exact stateOK_mono (Nat.le_succ _) (hb t h1)
          · subst h1
            have hold := bounded_getD hb hc
            exact ⟨transOK_mono (Nat.le_succ _) hold.1,
              transOK_mono (Nat.le_succ _) hold.2.1, Nat.lt_succ_self _⟩
        · rw [List.mem_singleton] at ht
          subst ht
          exact stateOK_default _
      · rw [hlen]
        exact Nat.lt_succ_self _

theorem bounded_set_accept {sts : List TransitionTable} {cur : Nat} (hb : Bounded sts)
    (hc : cur < sts.length) (cg : Option (List Codegen)) :
    Bounded (sts.set cur { sts.getD cur default with accept_codegen := cg }) ∧
      cur < (sts.set cur { sts.getD cur default with accept_codegen := cg }).length := by
  constructor
  · intro t ht
    rw [List.length_set]
    rcases List.mem_or_eq_of_mem_set ht with h1 | h1
    · exact hb t h1
    · subst h1
      have hold := bounded_getD hb hc
      exact ⟨hold.1, hold.2.1, hold.2.2⟩
  · rw [List.length_set]
    exact hc

theorem genDFA_inv (f : Nat) : ∀ (tks : List Lexeme) (name : String) (σ : PatState),
    Bounded σ.states → σ.current < σ.states.length →
    Bounded (genDFA f tks name σ).states ∧
      (genDFA f tks name σ).current < (genDFA f tks name σ).states.length := by
  induction f with
  | zero =>
      intro tks name σ hb hc
      exact ⟨hb, hc⟩
  | succ f ih =>
      intro tks name σ hb hc
      cases tks with
      | nil => exact ⟨hb, hc⟩
      | cons lx rest =>
        obtain ⟨tok, sl⟩ := lx
        cases tok with
        | immediate im =>
            cases rest with
            | nil => simp only [genDFA]; exact ⟨hb, hc⟩
            | cons l2 rest2 =>
              obtain ⟨tok2, sl2⟩ := l2
              cases tok2 with
              | colon =>
                  cases rest2 with
                  | nil => simp only [genDFA]; exact ⟨hb, hc⟩
                  | cons l3 rest3 =>
                    obtain ⟨tok3, sl3⟩ := l3
                    cases tok3 with
                    | integer w =>
                        have hadv := advanceImmediate_inv hb hc
                        simp only [genDFA]
                        exact ih rest3 name _ hadv.1 hadv.2
                    | ident s => simp only [genDFA]; exact ⟨hb, hc⟩
                    | register r => simp only [genDFA]; exact ⟨hb, hc⟩
                    | immediate j => simp only [genDFA]; exact ⟨hb, hc⟩
                    | comma => simp only [genDFA]; exact ⟨hb, hc⟩
                    | colon => simp only [genDFA]; exact ⟨hb, hc⟩
                    | arrow => simp only [genDFA]; exact ⟨hb, hc⟩
                    | orTok => simp only [genDFA]; exact ⟨hb, hc⟩
                    | openBracket => simp only [genDFA]; exact ⟨hb, hc⟩
                    | closeBracket => simp only [genDFA]; exact ⟨hb, hc⟩
                    | errorTok => simp only [genDFA]; exact ⟨hb, hc⟩
              | ident s => simp only [genDFA]; exact ih rest2 name _ hb hc
              | integer v => simp only [genDFA]; exact ih rest2 name _ hb hc
              | register r => simp only [genDFA]; exact ih rest2 name _ hb hc
              | immediate j => simp only [genDFA]; exact ih rest2 name _ hb hc
              | comma => simp only [genDFA]; exact ih rest2 name _ hb hc
              | arrow => simp only [genDFA]; exact ih rest2 name _ hb hc
              | orTok => simp only [genDFA]; exact ih rest2 name _ hb hc
              | openBracket => simp only [genDFA]; exact ih rest2 name _ hb hc
              | closeBracket => simp only [genDFA]; exact ih rest2 name _ hb hc
              | errorTok => simp only [genDFA]; exact ih rest2 name _ hb hc
        | register r =>
            have hadv := advanceRegister_inv hb hc
            simp only [genDFA]
            exact ih rest name _ hadv.1 hadv.2
        | comma =>
            have hadv := advanceComma_inv hb hc
            simp only [genDFA]
            exact ih rest name _ hadv.1 hadv.2
        | arrow =>
            by_cases hacc : (σ.states.getD σ.current default).accept_codegen.isSome = true
            · simp only [genDFA, hacc, if_true]
              exact ⟨hb, hc⟩
            · simp only [genDFA, hacc, if_false]
              have hset := bounded_set_accept hb hc
                (some (codegenLoop rest.length rest name σ.registers σ.immediates [] σ.logger).1)
              exact ⟨hset.1, hset.2⟩
        | ident s => simp only [genDFA]; exact ih rest name _ hb hc
        | integer v => simp only [genDFA]; exact ih rest name _ hb hc
        | colon => simp only [genDFA]; exact ih rest name _ hb hc
        | orTok => simp only [genDFA]; exact ih rest name _ hb hc
        | openBracket => simp only [genDFA]; exact ih rest name _ hb hc
        | closeBracket => simp only [genDFA]; exact ih rest name _ hb hc
        | errorTok => simp only [genDFA]; exact ih rest name _ hb hc

theorem mapLookup_mapStore (m : List (String × Instruction)) (k key : String)
    (v : Instruction) :
    mapLookup (mapStore m k v) key = if k = key then some v else mapLookup m key := by
  induction m with
  | nil =>
      by_cases hk : k = key <;> simp [mapStore, mapLookup, hk]
  | cons p rest ih =>
      obtain ⟨k', v'⟩ := p
      by_cases h : k' = k
      · subst h
        by_cases hk : k' = key <;> simp [mapStore, mapLookup, hk]
      · by_cases hk' : k' = key
        · subst hk'
          have hkk : ¬ k = k' := fun he => h he.symm
          simp [mapStore, mapLookup, h, hkk]
        · simp [mapStore, mapLookup, h, hk', ih]

theorem mapOK_store {m : List (String × Instruction)} (hm : MapOK m) (k : String)
    (ins : Instruction) (h1 : 0 < ins.states.length) (h2 : Bounded ins.states) :
    MapOK (mapStore m k ins) := by
  intro name' ins' h'
  rw [mapLookup_mapStore] at h'
  split at h'
  · cases h'
    exact ⟨h1, h2⟩
  · exact hm _ _ h'

theorem compileLine_inv (m : List (String × Instruction)) (lg : Logger) (src : String)
    (hm : MapOK m) : MapOK (compileLine m lg src).1 := by
  unfold compileLine
  cases hlex : lexLine src with
  | nil => exact hm
  | cons lx rest =>
      obtain ⟨tok, sl⟩ := lx
      cases tok with
      | ident nm =>
          have hini : 0 < ((mapLookup m (lowerStr nm)).getD ⟨[], [default]⟩).states.length
              ∧ Bounded ((mapLookup m (lowerStr nm)).getD ⟨[], [default]⟩).states := by
            cases hL : mapLookup m (lowerStr nm) with
            | none =>
                refine ⟨by simp, ?_⟩
                simp only [Option.getD_none]
                exact bounded_singleton_default
            | some ins => simpa using hm _ ins hL
          have hgen := genDFA_inv rest.length rest (lowerStr nm)
            ⟨((mapLookup m (lowerStr nm)).getD ⟨[], [default]⟩).states, 0, 0, [], lg, false⟩
            hini.2 (by simpa using hini.1)
          simp only
          split
          · exact mapOK_store hm _ _ (Nat.lt_of_le_of_lt (Nat.zero_le _) hgen.2) hgen.1
          · exact mapOK_store hm _ _ (Nat.lt_of_le_of_lt (Nat.zero_le _) hgen.2) hgen.1
      | integer v => exact hm
      | register r => exact hm
      | immediate i => exact hm
      | comma => exact hm
      | colon => exact hm
      | arrow => exact hm
      | orTok => exact hm
      | openBracket => exact hm
      | closeBracket => exact hm
      | errorTok => exact hm

theorem foldl_compile_inv (ls : List (Nat × String)) :
    ∀ (m : List (String × Instruction)) (lg : Logger), MapOK m →
    MapOK ((ls.foldl
      (fun acc p => compileLine acc.1 ⟨some ⟨"[unknown]", p.1⟩, acc.2.logs⟩ p.2)
      (m, lg)).1) := by
  induction ls with
  | nil =>
      intro m lg hm
      simpa using hm
  | cons p rest ih =>
      intro m lg hm
      rw [List.foldl_cons]
      exact ih _ _ (compileLine_inv _ _ _ hm)

theorem createCore_mapOK (config : String) : MapOK (createAssemblerCore config).1 := by
  unfold createAssemblerCore
  apply foldl_compile_inv
  intro name ins h
  simp [mapLookup] at h

theorem asmWalk_checked_eq (ins : Instruction) (hb : Bounded ins.states) :
    ∀ (tks : List Lexeme) (name : String) (cs : Nat) (regs imms : List Nat) (lg : Logger),
      cs < ins.states.length →
      asmWalkChecked ins name tks cs regs imms lg =
        some (asmWalk ins name tks cs regs imms lg) := by
  intro tks
  induction tks with
  | nil =>
      intro name cs regs imms lg hc
      have hget : ins.states.get? cs = some (ins.states.getD cs default) := by
        rw [List.get?_eq_getElem?, List.getElem?_eq_getElem hc, List.getD_eq_getElem _ _ hc]
      simp only [asmWalkChecked, asmWalk, hget]
      cases (ins.states.getD cs default).accept_codegen <;> rfl
  | cons lx rest ih =>
      intro name cs regs imms lg hc
      obtain ⟨tok, sl⟩ := lx
      have hget : ins.states.get? cs = some (ins.states.getD cs default) := by
        rw [List.get?_eq_getElem?, List.getElem?_eq_getElem hc, List.getD_eq_getElem _ _ hc]
      have hstate := bounded_getD hb hc
      cases tok with
      | integer v =>
          simp only [asmWalkChecked, asmWalk, hget]
          cases him : (ins.states.getD cs default).immediate with
          | reject => rfl
          | nextState nxt =>
              have hn : nxt < ins.states.length := by
                have h1 := hstate.2.1
                rw [him] at h1
                exact h1
              exact ih name nxt regs (imms ++ [v]) lg hn
      | register r =>
          simp only [asmWalkChecked, asmWalk, hget]
          cases hre : (ins.states.getD cs default).register with
          | reject => rfl
          | nextState nxt =>
              have hn : nxt < ins.states.length := by
                have h1 := hstate.1
                rw [hre] at h1
                exact h1
              by_cases h16 : r > 15
              · dsimp only
                simp only [if_pos h16]
              · dsimp only
                simp only [if_neg h16]
                exact ih name nxt (regs ++ [r]) imms lg hn
      | comma =>
          simp only [asmWalkChecked, asmWalk, hget]
          cases hcm : (ins.states.getD cs default).comma with
          | reject => rfl
          | nextState nxt =>
              have hn : nxt < ins.states.length := by
                have h1 := hstate.2.2
                rw [hcm] at h1
                exact h1
              exact ih name nxt regs imms lg hn
      | ident s => rfl
      | immediate i => rfl
      | colon => rfl
      | arrow => rfl
      | orTok => rfl
      | openBracket => rfl
      | closeBracket => rfl
      | errorTok => rfl

/-- C10: every `Instruction` produced by a successful
`create_assembler_from_config` has a non-empty state arena whose stored
transitions all target existing states, and consequently the bounds-checked
copy of the `assemble` DFA walk (which fails on any out-of-bounds state
index) agrees with the real walk from the start state on every token list:
no indexing of `states` during the walk is out of bounds. -/
theorem C10_states_in_bounds :
    ∀ (config : String) (a : Assembler) (name : String) (ins : Instruction),
      (create_assembler_from_config config).result = some a →
      mapLookup a.instructions name = some ins →
      (0 < ins.states.length ∧ Bounded ins.states)
      ∧ ∀ (nm : String) (tks : List Lexeme) (regs imms : List Nat) (lg : Logger),
          asmWalkChecked ins nm tks 0 regs imms lg =
            some (asmWalk ins nm tks 0 regs imms lg) := by
  intro config a name ins hres hlook
  have hmap : a.instructions = (createAssemblerCore config).1 := by
    unfold create_assembler_from_config Logger.into_result at hres
    simp only at hres
    split at hres
    · exact absurd hres (by simp)
    · cases hres
      rfl
  have hok := createCore_mapOK config name ins (by rw [← hmap]; exact hlook)
  refine ⟨hok, ?_⟩
  intro nm tks regs imms lg
  exact asmWalk_checked_eq ins hok.2 tks nm 0 regs imms lg hok.1

/-- C10 witness: instantiated at the single-pattern config `add r0 -> 1`. -/
theorem C10_states_in_bounds_witness :
    (0 < insAdd.states.length ∧ Bounded insAdd.states)
    ∧ ∀ (nm : String) (tks : List Lexeme) (regs imms : List Nat) (lg : Logger),
        asmWalkChecked insAdd nm tks 0 regs imms lg =
          some (asmWalk insAdd nm tks 0 regs imms lg) :=
  C10_states_in_bounds "add r0 -> 1" asmAdd "add" insAdd (by rfl) (by rfl)

end Asm
